import Mathlib

/-!
Verification of the pagination and REPL-compilation core of the
`interactions-repl` extension.

The Lean definitions below are a shallow embedding of the Python sources:

* `Paginator`, `WrappedPaginator`, `PaginatorInterface` embed
  `interactions/ext/repl/jsk/paginators.py`;
* `wrap_code`, `AsyncCodeExecutor.run` embed the AST rewriting and the
  generated-coroutine semantics of
  `interactions/ext/repl/jsk/python/compilation.py`.

Python's mutable objects are rendered as explicit state passing: a method
that mutates `self` becomes a function `State → State` (or
`State → Except ReplError State` when the Python method can raise).
String lengths are exact codepoint counts (`String.length`), matching
Python's `len` on `str`.
-/

namespace Repl

/-- Errors raised by the embedded code.  Each constructor corresponds to one
`raise` site in the source and carries the data interpolated into the
Python exception message. -/
inductive ReplError where
  | lineTooBig : Int → ReplError
  | cannotWrap : Nat → Nat → Int → ReplError
  | fuelExhausted : ReplError
  | pageSizeTooLarge : Nat → Nat → ReplError
deriving DecidableEq

instance {ε α : Type} [DecidableEq ε] [DecidableEq α] : DecidableEq (Except ε α)
  | .error e, .error f =>
    if h : e = f then .isTrue (by rw [h])
    else .isFalse (by intro hh; cases hh; exact h rfl)
  | .error _, .ok _ => .isFalse (by intro h; cases h)
  | .ok _, .error _ => .isFalse (by intro h; cases h)
  | .ok a, .ok b =>
    if h : a = b then .isTrue (by rw [h])
    else .isFalse (by intro hh; cases hh; exact h rfl)

/-- `joinSep sep l` models Python's `sep.join(l)`. -/
def joinSep (sep : String) : List String → String
  | [] => ""
  | [x] => x
  | x :: y :: xs => x ++ sep ++ joinSep sep (y :: xs)

/-- State of `Paginator` (paginators.py).  `pfx` stands for the `prefix`
attribute (`prefix` is reserved in Lean); both `prefix` and `suffix` may be
`None` in Python, hence `Option String`. -/
structure Paginator where
  pfx : Option String
  suffix : Option String
  max_size : Nat
  linesep : String
  _current_page : List String
  _count : Nat
  _pages : List String
deriving DecidableEq

/-- `Paginator._prefix_len`: `len(self.prefix) if self.prefix else 0`. -/
def Paginator.prefixLen (p : Paginator) : Nat := (p.pfx.getD "").length

/-- `Paginator._suffix_len`: `len(self.suffix) if self.suffix else 0`. -/
def Paginator.suffixLen (p : Paginator) : Nat := (p.suffix.getD "").length

/-- `Paginator._linesep_len`. -/
def Paginator.linesepLen (p : Paginator) : Nat := p.linesep.length

/-- `Paginator.clear`. -/
def Paginator.clear (p : Paginator) : Paginator :=
  match p.pfx with
  | some pre =>
    { p with _current_page := [pre], _count := pre.length + p.linesepLen, _pages := [] }
  | none => { p with _current_page := [], _count := 0, _pages := [] }

/-- `Paginator.__init__`: stores the four configuration attributes and calls
`clear`. -/
def Paginator.init (pfx suffix : Option String) (max_size : Nat) (linesep : String) :
    Paginator :=
  Paginator.clear ⟨pfx, suffix, max_size, linesep, [], 0, []⟩

/-- `Paginator.close_page`. -/
def Paginator.close_page (p : Paginator) : Paginator :=
  let cur := match p.suffix with
    | some s => p._current_page ++ [s]
    | none => p._current_page
  let pages := p._pages ++ [joinSep p.linesep cur]
  match p.pfx with
  | some pre =>
    { p with _pages := pages, _current_page := [pre],
             _count := pre.length + p.linesepLen }
  | none => { p with _pages := pages, _current_page := [], _count := 0 }

/-- The `max_page_size` local computed at the top of `Paginator.add_line`;
computed in `Int` because the Python subtraction may go negative. -/
def Paginator.max_page_size (p : Paginator) : Int :=
  (p.max_size : Int) - p.prefixLen - p.suffixLen - 2 * p.linesepLen

/-- The unconditional tail of `Paginator.add_line`: append the line (and the
optional extra blank line) to the current page and update the count. -/
def Paginator.appendLine (p : Paginator) (line : String) (empty : Bool) : Paginator :=
  let p1 := { p with _count := p._count + line.length + p.linesepLen,
                     _current_page := p._current_page ++ [line] }
  if empty then
    { p1 with _current_page := p1._current_page ++ [""],
              _count := p1._count + p.linesepLen }
  else p1

/-- `Paginator.add_line`.  Raising `RuntimeError` is modelled as
`Except.error (.lineTooBig _)`. -/
def Paginator.add_line (p : Paginator) (line : String) (empty : Bool) :
    Except ReplError Paginator :=
  if (line.length : Int) > p.max_page_size then
    .error (.lineTooBig p.max_page_size)
  else
    let q :=
      if (p._count : Int) + line.length + p.linesepLen >
          (p.max_size : Int) - p.suffixLen
      then p.close_page else p
    .ok (q.appendLine line empty)

/-- `Paginator.__len__`. -/
def Paginator.length (p : Paginator) : Nat :=
  (p._pages.map String.length).sum + p._count

/-- The state after reading the `Paginator.pages` property (the property
closes the current page when it holds more than just the prefix). -/
def Paginator.pagesState (p : Paginator) : Paginator :=
  if p._current_page.length > (match p.pfx with | none => 0 | some _ => 1) then
    p.close_page
  else p

/-- The list returned by the `Paginator.pages` property. -/
def Paginator.pages (p : Paginator) : List String :=
  (Paginator.pagesState p)._pages

/-- Fold `add_line` (with `empty=False`) over a list of lines. -/
def Paginator.addAll (p : Paginator) : List String → Except ReplError Paginator
  | [] => .ok p
  | l :: ls => (p.add_line l false).bind (fun q => q.addAll ls)

/-- An operation in a `Paginator` call sequence. -/
inductive PagOp where
  | addLine : String → Bool → PagOp
  | closePage : PagOp
deriving DecidableEq

/-- Run a sequence of `add_line`/`close_page` calls. -/
def Paginator.runOps (p : Paginator) : List PagOp → Except ReplError Paginator
  | [] => .ok p
  | .addLine l e :: ops => (p.add_line l e).bind (fun q => q.runOps ops)
  | .closePage :: ops => p.close_page.runOps ops

/-- `[s]` for `some s`, `[]` for `None` — the contribution of an optional
prefix/suffix to a page's line list. -/
def optList : Option String → List String
  | none => []
  | some s => [s]

/-- The string `close_page` would append right now: the rendered form of the
open (accumulating) page buffer, suffix included. -/
def Paginator.openRendered (p : Paginator) : String :=
  joinSep p.linesep (p._current_page ++ optList p.suffix)

/-- The count a freshly reset open buffer starts with (`clear`/`close_page`):
`len(prefix) + len(linesep)` when a prefix is present, else `0`. -/
def Paginator.baseCount (p : Paginator) : Nat :=
  match p.pfx with
  | some pre => pre.length + p.linesepLen
  | none => 0

/-- The running count `_count` corresponding to content lines `curLines` of
the open buffer. -/
def Paginator.curCount (p : Paginator) (curLines : List String) : Nat :=
  p.baseCount + (curLines.map (fun l => l.length + p.linesepLen)).sum

/-- Structural invariant of the open buffer: it is the optional prefix
followed by content lines, and `_count` is the running count the source
maintains for it. -/
def Paginator.countInv (p : Paginator) : Prop :=
  ∃ curLines, p._current_page = optList p.pfx ++ curLines ∧
    p._count = p.curCount curLines

/-- Size invariant claimed by the spec (claim C2): the rendered open buffer,
suffix included, stays within `max_size`; phrased on the running count. -/
def Paginator.sizeInv (p : Paginator) : Prop :=
  p.countInv ∧ p._count + p.suffixLen ≤ p.max_size

/-- How `close_page` renders a page whose content lines are `grp`:
`linesep.join([prefix] + grp + [suffix])` (prefix/suffix omitted when
`None`).  Stripping the prefix and suffix of such a page leaves exactly the
content lines, which is how claim C1 phrases reconstruction. -/
def renderPage (pfx suffix : Option String) (linesep : String)
    (grp : List String) : String :=
  joinSep linesep (optList pfx ++ grp ++ optList suffix)

/-- Reconstruction invariant for claim C1: every closed page is the
rendering of a group of content lines, the open buffer is the prefix plus
trailing content lines, and the groups plus the open lines are exactly the
lines added so far, in order. -/
def Paginator.contentInv (p : Paginator) (added : List String) : Prop :=
  ∃ (groups : List (List String)) (curLines : List String),
    p._pages = groups.map (renderPage p.pfx p.suffix p.linesep) ∧
    p._current_page = optList p.pfx ++ curLines ∧
    groups.join ++ curLines = added

/-- State of `PaginatorInterface` restricted to the fields the verified
claims touch: the wrapped `Paginator` object and the raw stored
`_display_page` index (an arbitrary `Int`, set to `0` in `__init__`).
The message/reaction fields play no role in the claims. -/
structure PaginatorInterface where
  paginator : Paginator
  _display_page : Int
deriving DecidableEq

/-- The `PaginatorInterface.pages` property: the paginator's closed pages
plus, when the current page holds more than one element, a rendering of the
open buffer made with a hard-coded `"\n"` separator and
`self.paginator.suffix or ""` — computed without calling `close_page`. -/
def PaginatorInterface.pages (i : PaginatorInterface) : List String :=
  let paginator_pages := i.paginator._pages
  if i.paginator._current_page.length > 1 then
    paginator_pages ++
      [joinSep "\n" i.paginator._current_page ++ "\n" ++
        (i.paginator.suffix.getD "")]
  else paginator_pages

/-- The `PaginatorInterface.page_count` property. -/
def PaginatorInterface.page_count (i : PaginatorInterface) : Nat :=
  i.pages.length

/-- Reading the `display_page` property: clamps the stored index into
`[0, page_count - 1]`, stores the clamp back, and returns it. -/
def PaginatorInterface.display_page_read (i : PaginatorInterface) :
    Int × PaginatorInterface :=
  let v := max 0 (min ((i.page_count : Int) - 1) i._display_page)
  (v, { i with _display_page := v })

/-- The `display_page` setter: stores the clamped value. -/
def PaginatorInterface.display_page_set (i : PaginatorInterface) (value : Int) :
    PaginatorInterface :=
  { i with _display_page := max 0 (min ((i.page_count : Int) - 1) value) }

/-- The `max_page_size` class attribute. -/
def PaginatorInterface.max_page_size : Nat := 2000

/-- The `page_size` property:
`paginator.max_size + len(f"\nPage N/N")` with `N` the current page count
(the longest footer possible for that page count, since the displayed page
number never exceeds it). -/
def PaginatorInterface.page_size (i : PaginatorInterface) : Nat :=
  i.paginator.max_size +
    ("\nPage " ++ toString i.page_count ++ "/" ++
      toString i.page_count).length

/-- `PaginatorInterface.__init__`: sets `_display_page = 0`, then raises
`ValueError` when `page_size` exceeds the `max_page_size` ceiling, before
any message is sent. -/
def PaginatorInterface.init (pag : Paginator) :
    Except ReplError PaginatorInterface :=
  if PaginatorInterface.max_page_size <
      PaginatorInterface.page_size ⟨pag, 0⟩ then
    .error (.pageSizeTooLarge (PaginatorInterface.page_size ⟨pag, 0⟩)
      PaginatorInterface.max_page_size)
  else .ok ⟨pag, 0⟩

/-- Reading the `send_kwargs` property: reads `display_page` (which stores
the clamp), renders the `"\nPage X/Y"` footer and appends it to the
displayed page.  An out-of-range index (only possible with zero pages) is
Python's `IndexError`, modelled as `none`. -/
def PaginatorInterface.send_kwargs_read (i : PaginatorInterface) :
    Option String × PaginatorInterface :=
  let r := i.display_page_read
  let display_page := r.1
  let i1 := r.2
  let page_num := "\nPage " ++ toString (display_page + 1) ++ "/" ++
    toString i1.page_count
  match i1.pages[display_page.toNat]? with
  | some pg => (some (pg ++ page_num), i1)
  | none => (none, i1)

/-- A fragment of the Python expression AST, as produced by
`import_expression.parse` for the statement forms the claims exercise.
`yieldE e` is `ast.Yield` with value `e` and `yieldBare` is `ast.Yield`
with value `None`; `yieldFrom` is the distinct `ast.YieldFrom` node;
`binop` is modelled as integer addition (the claims' scenario uses
`x + 1`). -/
inductive PyExpr where
  | yieldE : PyExpr → PyExpr
  | yieldBare : PyExpr
  | yieldFrom : PyExpr → PyExpr
  | name : String → PyExpr
  | constE : Int → PyExpr
  | binop : PyExpr → PyExpr → PyExpr
deriving DecidableEq

/-- `isinstance(value, ast.Yield)` — true only for the `Yield` node,
not for `YieldFrom`. -/
def PyExpr.isYield : PyExpr → Bool
  | .yieldE _ => true
  | .yieldBare => true
  | _ => false

/-- A fragment of the Python statement AST: bare expression statements
(`ast.Expr`), assignments, `pass` and `raise`. -/
inductive PyStmt where
  | exprStmt : PyExpr → PyStmt
  | assign : String → PyExpr → PyStmt
  | passS : PyStmt
  | raiseS : PyStmt
deriving DecidableEq

/-- `wrap_code` (compilation.py), modelled at the level of the generated
coroutine's try-block body.  The template's try body starts as `[pass]` and
is extended with the user statements; `import_expression.parse` and the
`KeywordTransformer` pass (walkers.py) are identity on the statement forms
modelled here (the transformer rewrites only `return`/`delete`/`global`
constructs, none of which `PyStmt` contains).  Then: if the final statement
is a bare expression whose value is not an `ast.Yield`, it is replaced in
place by a yield of that expression; otherwise the body is returned
unchanged. -/
def wrap_code (userBody : List PyStmt) : List PyStmt :=
  let tryBody := [PyStmt.passS] ++ userBody
  match tryBody.getLast? with
  | some (.exprStmt v) =>
    if v.isYield then tryBody
    else tryBody.dropLast ++ [.exprStmt (.yieldE v)]
  | _ => tryBody

/-- Modelled from the spec: `Scope` (scope.py, which is imported by
compilation.py but not included under src/) is "a mutable pair of
namespaces — globals and locals mappings (string keys to arbitrary
values)".  Namespaces are partial maps from names to integer values —
enough for the claims' scenarios. -/
structure Scope where
  globals : String → Option Int
  locals : String → Option Int

/-- `dict.update`: entries of `upd` override entries of `base`. -/
def nsUpdate (base upd : String → Option Int) : String → Option Int :=
  fun y => match upd y with
    | some v => some v
    | none => base y

/-- Bind one name in a namespace. -/
def nsSet (ns : String → Option Int) (x : String) (v : Int) :
    String → Option Int :=
  fun y => if y = x then some v else ns y

/-- Name resolution inside the generated coroutine: function locals first,
then the function globals (the `scope.globals` dict passed to `exec`). -/
def scopedEnv (globs locs : String → Option Int) : String → Option Int :=
  fun x => match locs x with
    | some v => some v
    | none => globs x

/-- Evaluate an expression of the modelled fragment; `none` is a raised
exception (`NameError` for an unbound name; a yield in a nested expression
position is outside the fragment). -/
def evalExpr (env : String → Option Int) : PyExpr → Option Int
  | .name x => env x
  | .constE n => some n
  | .binop a b =>
    match evalExpr env a, evalExpr env b with
    | some va, some vb => some (va + vb)
    | _, _ => none
  | .yieldE _ => none
  | .yieldBare => none
  | .yieldFrom _ => none

/-- Outcome of running the coroutine body: the function locals at exit, the
values yielded so far, and whether the body raised. -/
structure RunState where
  locals : String → Option Int
  yields : List (Option Int)
  raised : Bool

/-- Execute the generated coroutine body: assignments bind function locals,
a bare yield statement emits a value, `raise` and evaluation failures stop
the body with the exception flag set (keeping the locals bound so far). -/
def runStmts (globs : String → Option Int) :
    List PyStmt → (String → Option Int) → List (Option Int) → RunState
  | [], loc, ys => ⟨loc, ys, false⟩
  | .passS :: rest, loc, ys => runStmts globs rest loc ys
  | .raiseS :: _, loc, ys => ⟨loc, ys, true⟩
  | .assign x e :: rest, loc, ys =>
    match evalExpr (scopedEnv globs loc) e with
    | some v => runStmts globs rest (nsSet loc x v) ys
    | none => ⟨loc, ys, true⟩
  | .exprStmt .yieldBare :: rest, loc, ys =>
    runStmts globs rest loc (ys ++ [none])
  | .exprStmt (.yieldE e) :: rest, loc, ys =>
    match evalExpr (scopedEnv globs loc) e with
    | some v => runStmts globs rest loc (ys ++ [some v])
    | none => ⟨loc, ys, true⟩
  | .exprStmt e :: rest, loc, ys =>
    match evalExpr (scopedEnv globs loc) e with
    | some _ => runStmts globs rest loc ys
    | none => ⟨loc, ys, true⟩

/-- One executor run (`AsyncCodeExecutor` construction plus iteration):
wrap the user body with `wrap_code`, execute it against the scope, and —
mirroring the `finally:` clause of `CORO_CODE` —
merge the locals created during execution into `scope.globals` whether or
not the body raised.  Returns the updated scope, the yielded values, and
the raised flag. -/
def AsyncCodeExecutor.run (scope : Scope) (userBody : List PyStmt) :
    Scope × List (Option Int) × Bool :=
  let r := runStmts scope.globals (wrap_code userBody) (fun _ => none) []
  ({ scope with globals := nsUpdate scope.globals r.locals }, r.yields, r.raised)

/-- Python slice `s[:j]` (a negative `j` counts from the end, clamped). -/
def pySliceTo (s : String) (j : Int) : String :=
  String.mk (s.data.take (if j < 0 then ((s.length : Int) + j).toNat
    else j.toNat))

/-- Python slice `s[i:]` (a negative `i` counts from the end, clamped). -/
def pySliceFrom (s : String) (i : Int) : String :=
  String.mk (s.data.drop (if i < 0 then ((s.length : Int) + i).toNat
    else i.toNat))

/-- Python's `s.rfind(d)`: the largest index at which `d` occurs in `s`
(`len(s)` for the empty needle), or `-1` when there is no occurrence. -/
def rfind (s d : String) : Int :=
  match ((List.range (s.length + 1)).filter
      (fun i => d.data.isPrefixOf (s.data.drop i))).getLast? with
  | some i => (i : Int)
  | none => -1

/-- The delimiter scan of `WrappedPaginator.add_line`: the first delimiter
in priority order whose `rfind` position in the search string is positive,
together with that position (the inner `for`/`break`). -/
def findWrapPoint (wrap_on : List String) (s : String) :
    Option (Int × String) :=
  wrap_on.findSome? (fun d =>
    let position := rfind s d
    if position > 0 then some (position, d) else none)

/-- The `while` loop of `WrappedPaginator.add_line`, with an explicit fuel
argument for termination.  Every productive Python iteration shortens the
line, so fuel `len(line) + 1` is always sufficient; `.error .fuelExhausted`
is reachable only on configurations (`true_max_size ≤ 1` with `force_wrap`)
where the Python loop itself never terminates. -/
def wrapLoop (wrap_on : List String) (include_wrapped force_wrap : Bool)
    (true_max_size : Int) (original_length : Nat) :
    Nat → Paginator → String → Bool → Except ReplError Paginator
  | 0, _, _, _ => .error .fuelExhausted
  | fuel + 1, p, line, empty =>
    if (line.length : Int) > true_max_size then
      match findWrapPoint wrap_on (pySliceTo line (true_max_size - 1)) with
      | some (position, delimiter) =>
        match p.add_line (pySliceTo line position) empty with
        | .error e => .error e
        | .ok p1 =>
          wrapLoop wrap_on include_wrapped force_wrap true_max_size
            original_length fuel p1
            (if include_wrapped then pySliceFrom line position
             else pySliceFrom line (position + delimiter.length))
            empty
      | none =>
        if force_wrap then
          match p.add_line (pySliceTo line (true_max_size - 1)) false with
          | .error e => .error e
          | .ok p1 =>
            wrapLoop wrap_on include_wrapped force_wrap true_max_size
              original_length fuel p1
              (pySliceFrom line (true_max_size - 1)) empty
        else
          .error (.cannotWrap original_length line.length true_max_size)
    else
      p.add_line line empty

/-- State of `WrappedPaginator`: the inherited `Paginator` state plus the
three wrapping options. -/
structure WrappedPaginator where
  toPaginator : Paginator
  wrap_on : List String
  include_wrapped : Bool
  force_wrap : Bool

/-- The `true_max_size` local of `WrappedPaginator.add_line`:
`max_size - prefix_len - suffix_len - 2`. -/
def WrappedPaginator.true_max_size (w : WrappedPaginator) : Int :=
  (w.toPaginator.max_size : Int) - w.toPaginator.prefixLen -
    w.toPaginator.suffixLen - 2

/-- `WrappedPaginator.add_line`: run the wrapping loop, then hand the
within-capacity remainder to the base `add_line` (preserving `empty`). -/
def WrappedPaginator.add_line (w : WrappedPaginator) (line : String)
    (empty : Bool) : Except ReplError Paginator :=
  wrapLoop w.wrap_on w.include_wrapped w.force_wrap w.true_max_size
    line.length (line.length + 1) w.toPaginator line empty

/-- The cut points that the spec's "forcibly cut at the truncation
boundary" prescribes: successive chunks of `true_max_size - 1` characters,
then the within-capacity remainder.  A spec-side definition used to state
claim C4. -/
def specForceChunks (true_max_size : Int) : Nat → String → List String
  | 0, line => [line]
  | fuel + 1, line =>
    if (line.length : Int) > true_max_size then
      pySliceTo line (true_max_size - 1) ::
        specForceChunks true_max_size fuel
          (pySliceFrom line (true_max_size - 1))
    else [line]

/-- Feed a list of line pieces to the base `add_line`, passing `empty` only
with the final piece (as the wrapping loop does). -/
def addChunks (p : Paginator) (empty : Bool) :
    List String → Except ReplError Paginator
  | [] => .ok p
  | [c] => p.add_line c empty
  | c :: c2 :: rest =>
    match p.add_line c false with
    | .error e => .error e
    | .ok p1 => addChunks p1 empty (c2 :: rest)

/-- No configured delimiter occurs in `line` at any position greater
than `0` (claim C4's hypothesis; an occurrence at position `0` never
triggers a wrap, since the loop requires `position > 0`). -/
def noDelimAfter (wrap_on : List String) (line : String) : Prop :=
  ∀ d ∈ wrap_on, ∀ i : Nat, 0 < i →
    ¬ d.data.isPrefixOf (line.data.drop i) = true

/-! ### Theorems -/

@[simp]
theorem optList_none : optList none = [] := rfl

@[simp]
theorem optList_some (s : String) : optList (some s) = [s] := rfl

@[simp]
theorem Paginator.close_page_config (p : Paginator) :
    p.close_page.pfx = p.pfx ∧ p.close_page.suffix = p.suffix ∧
    p.close_page.max_size = p.max_size ∧ p.close_page.linesep = p.linesep := by
  cases hp : p.pfx <;> simp [Paginator.close_page, hp]

@[simp]
theorem Paginator.appendLine_config (p : Paginator) (line : String) (empty : Bool) :
    (p.appendLine line empty).pfx = p.pfx ∧
    (p.appendLine line empty).suffix = p.suffix ∧
    (p.appendLine line empty).max_size = p.max_size ∧
    (p.appendLine line empty).linesep = p.linesep := by
  cases empty <;> simp [Paginator.appendLine]

theorem Paginator.add_line_config {p q : Paginator} {line : String} {empty : Bool}
    (h : p.add_line line empty = .ok q) :
    q.pfx = p.pfx ∧ q.suffix = p.suffix ∧ q.max_size = p.max_size ∧
    q.linesep = p.linesep := by
  unfold Paginator.add_line at h
  split at h
  · exact absurd h (by simp)
  · simp only [Except.ok.injEq] at h
    subst h
    split
    · simp [Paginator.close_page_config p |>.1, (Paginator.close_page_config p).2.1,
        (Paginator.close_page_config p).2.2.1, (Paginator.close_page_config p).2.2.2]
    · exact Paginator.appendLine_config p line empty

theorem Paginator.add_line_max_page_size {p q : Paginator} {line : String} {empty : Bool}
    (h : p.add_line line empty = .ok q) : q.max_page_size = p.max_page_size := by
  obtain ⟨h1, h2, h3, h4⟩ := Paginator.add_line_config h
  simp [Paginator.max_page_size, Paginator.prefixLen, Paginator.suffixLen,
    Paginator.linesepLen, h1, h2, h3, h4]

/-- Length of a separator join, head-normal form. -/
theorem joinSep_length_cons (sep x : String) :
    ∀ xs : List String, (joinSep sep (x :: xs)).length =
      x.length + (xs.map String.length).sum + xs.length * sep.length := by
  intro xs
  induction xs generalizing x with
  | nil => simp [joinSep]
  | cons y ys ih =>
    show (x ++ sep ++ joinSep sep (y :: ys)).length = _
    rw [String.length_append, String.length_append, ih]
    simp [List.length_cons]
    ring

/-- Claim C3: a line of length exactly `max_page_size` (the usable capacity
`max_size - prefix_len - suffix_len - 2*linesep_len`) is accepted and is
appended verbatim to the current page (never truncated); a line one
character longer makes `add_line` raise the size-exceeded error. -/
theorem add_line_boundary_exact (p : Paginator) (line : String) (empty : Bool) :
    ((line.length : Int) = p.max_page_size →
      ∃ q, p.add_line line empty = .ok q ∧ line ∈ q._current_page) ∧
    ((line.length : Int) = p.max_page_size + 1 →
      p.add_line line empty = .error (.lineTooBig p.max_page_size)) := by
  constructor
  · intro h
    refine ⟨Paginator.appendLine
        (if (p._count : Int) + line.length + p.linesepLen >
            (p.max_size : Int) - p.suffixLen then p.close_page else p) line empty,
      ?_, ?_⟩
    · unfold Paginator.add_line
      rw [if_neg (by omega)]
    · unfold Paginator.appendLine
      cases empty <;> simp
  · intro h
    unfold Paginator.add_line
    rw [if_pos (by omega)]

/-- Witness for C3 at a concrete configuration: capacity is
`10 - 1 - 1 - 2 = 6`; a 6-character line is accepted untruncated and a
7-character line raises. -/
theorem add_line_boundary_exact_witness :
    (∃ q, (Paginator.init (some "p") (some "s") 10 "\n").add_line "aaaaaa" false
        = .ok q ∧ "aaaaaa" ∈ q._current_page) ∧
    (Paginator.init (some "p") (some "s") 10 "\n").add_line "aaaaaaa" false
      = .error (.lineTooBig 6) := by
  constructor
  · exact (add_line_boundary_exact (Paginator.init (some "p") (some "s") 10 "\n")
      "aaaaaa" false).1 (by decide)
  · have h := (add_line_boundary_exact (Paginator.init (some "p") (some "s") 10 "\n")
      "aaaaaaa" false).2 (by decide)
    simpa using h

/-- Claim C9: at every state reachable by a sequence of `add_line` /
`close_page` calls, `len(paginator)` equals the sum of the closed pages'
lengths plus the running count of the open buffer, and the same equality
holds for the state the `pages` accessor leaves behind (which may have
implicitly closed the open buffer). -/
theorem length_eq_pages_plus_count (pfx suffix : Option String) (max_size : Nat)
    (linesep : String) (ops : List PagOp) (p : Paginator)
    (h : (Paginator.init pfx suffix max_size linesep).runOps ops = .ok p) :
    Paginator.length p = (p._pages.map String.length).sum + p._count ∧
    Paginator.length (Paginator.pagesState p) =
      ((Paginator.pagesState p)._pages.map String.length).sum +
        (Paginator.pagesState p)._count :=
  ⟨rfl, rfl⟩

/-- Witness for C9 on a concrete call sequence whose final state has one
closed page and a non-trivial open buffer. -/
theorem length_eq_pages_plus_count_witness :
    (Paginator.init (some "p") (some "s") 20 "\n").runOps
        [.addLine "hi" false, .closePage, .addLine "yo" true] =
      .ok ⟨some "p", some "s", 20, "\n", ["p", "yo", ""], 6, ["p\nhi\ns"]⟩ ∧
    (Paginator.length ⟨some "p", some "s", 20, "\n", ["p", "yo", ""], 6, ["p\nhi\ns"]⟩ =
        ((⟨some "p", some "s", 20, "\n", ["p", "yo", ""], 6,
          ["p\nhi\ns"]⟩ : Paginator)._pages.map String.length).sum +
        (⟨some "p", some "s", 20, "\n", ["p", "yo", ""], 6,
          ["p\nhi\ns"]⟩ : Paginator)._count ∧
      Paginator.length (Paginator.pagesState
          ⟨some "p", some "s", 20, "\n", ["p", "yo", ""], 6, ["p\nhi\ns"]⟩) =
        ((Paginator.pagesState ⟨some "p", some "s", 20, "\n", ["p", "yo", ""], 6,
            ["p\nhi\ns"]⟩)._pages.map String.length).sum +
        (Paginator.pagesState ⟨some "p", some "s", 20, "\n", ["p", "yo", ""], 6,
            ["p\nhi\ns"]⟩)._count) :=
  ⟨by decide,
   length_eq_pages_plus_count (some "p") (some "s") 20 "\n"
     [.addLine "hi" false, .closePage, .addLine "yo" true] _ (by decide)⟩

theorem joinSep_cons_le (sep x : String) (xs : List String) :
    (joinSep sep (x :: xs)).length ≤
      x.length + sep.length + (joinSep sep xs).length := by
  cases xs with
  | nil => simp [joinSep]
  | cons y ys =>
    show (x ++ sep ++ joinSep sep (y :: ys)).length ≤ _
    simp [String.length_append]

theorem joinSep_optList_length (sep : String) (o : Option String) :
    (joinSep sep (optList o)).length = (o.getD "").length := by
  cases o <;> simp [optList, joinSep]

theorem joinSep_append_optList_le (sep : String) (o : Option String) :
    ∀ ls : List String,
      (joinSep sep (ls ++ optList o)).length ≤
        (ls.map (fun l => l.length + sep.length)).sum + (o.getD "").length := by
  intro ls
  induction ls with
  | nil => simp [joinSep_optList_length]
  | cons c rest ih =>
    calc (joinSep sep (c :: (rest ++ optList o))).length
        ≤ c.length + sep.length + (joinSep sep (rest ++ optList o)).length :=
          joinSep_cons_le sep c (rest ++ optList o)
      _ ≤ c.length + sep.length +
            ((rest.map (fun l => l.length + sep.length)).sum + (o.getD "").length) := by
          omega
      _ = _ := by simp; omega

/-- The rendered open buffer is no longer than `_count + suffix_len`
whenever `_count` satisfies the structural invariant. -/
theorem Paginator.openRendered_le {p : Paginator} (hp : p.countInv) :
    p.openRendered.length ≤ p._count + p.suffixLen := by
  obtain ⟨curLines, hcur, hcount⟩ := hp
  unfold Paginator.openRendered
  rw [hcur, hcount]
  unfold Paginator.curCount Paginator.baseCount Paginator.suffixLen
    Paginator.linesepLen
  cases hpf : p.pfx with
  | none =>
    simp only [optList_none, List.nil_append]
    have := joinSep_append_optList_le p.linesep p.suffix curLines
    omega
  | some pre =>
    simp only [optList_some, List.cons_append, List.nil_append]
    have h1 := joinSep_cons_le p.linesep pre (curLines ++ optList p.suffix)
    have h2 := joinSep_append_optList_le p.linesep p.suffix curLines
    omega

/-- `clear` (hence `__init__`) establishes the size invariant whenever the
configuration is sane (`prefix + suffix + linesep` fit in `max_size`). -/
theorem Paginator.init_sizeInv (pfx suffix : Option String) (max_size : Nat)
    (linesep : String)
    (hcfg : (pfx.getD "").length + (suffix.getD "").length + linesep.length ≤
      max_size) :
    (Paginator.init pfx suffix max_size linesep).sizeInv := by
  unfold Paginator.init Paginator.clear
  cases pfx with
  | none =>
    refine ⟨⟨[], by simp [optList], by simp [Paginator.curCount, Paginator.baseCount]⟩, ?_⟩
    simp only [Paginator.suffixLen]
    omega
  | some pre =>
    refine ⟨⟨[], by simp [optList], by
      simp [Paginator.curCount, Paginator.baseCount, Paginator.linesepLen]⟩, ?_⟩
    simp only [Paginator.suffixLen, Paginator.linesepLen]
    simp at hcfg ⊢
    omega

theorem Paginator.appendLine_false (p : Paginator) (line : String) :
    p.appendLine line false =
      { p with _count := p._count + line.length + p.linesepLen,
               _current_page := p._current_page ++ [line] } := by
  simp [Paginator.appendLine]

theorem Paginator.close_page_resets (p : Paginator) :
    p.close_page._current_page = optList p.pfx ∧
    p.close_page._count = p.baseCount := by
  cases hp : p.pfx <;>
    simp [Paginator.close_page, Paginator.baseCount, hp, optList]

theorem Paginator.baseCount_le (p : Paginator) :
    p.baseCount ≤ p.prefixLen + p.linesepLen := by
  cases hp : p.pfx <;>
    simp [Paginator.baseCount, Paginator.prefixLen, hp]

/-- One `add_line` call with `empty=False` preserves the size invariant. -/
theorem Paginator.add_line_sizeInv {p q : Paginator} {line : String}
    (hp : p.sizeInv)
    (h : p.add_line line false = .ok q) : q.sizeInv := by
  obtain ⟨⟨curLines, hcur, hcount⟩, hbound⟩ := hp
  have hlen : (line.length : Int) ≤ p.max_page_size := by
    unfold Paginator.add_line at h
    split at h
    · exact absurd h (by simp)
    · omega
  unfold Paginator.add_line at h
  rw [if_neg (by omega)] at h
  simp only [Except.ok.injEq] at h
  subst h
  unfold Paginator.max_page_size Paginator.prefixLen Paginator.suffixLen
    Paginator.linesepLen at hlen
  split
  · rename_i hcond
    -- the current page is closed first, then the line is appended
    constructor
    · rw [Paginator.appendLine_false]
      refine ⟨[line], ?_, ?_⟩ <;>
        cases hpf : p.pfx <;>
          simp [Paginator.close_page, Paginator.curCount, Paginator.baseCount,
            Paginator.linesepLen, optList, hpf] <;>
          omega
    · rw [Paginator.appendLine_false]
      cases hpf : p.pfx <;>
        simp only [hpf, Option.getD_some, Option.getD_none, String.length_empty] at hlen <;>
        simp [Paginator.close_page, Paginator.suffixLen, Paginator.linesepLen, hpf] <;>
        omega
  · rename_i hcond
    constructor
    · rw [Paginator.appendLine_false]
      refine ⟨curLines ++ [line], ?_, ?_⟩
      · simp [hcur]
      · rw [hcount]
        cases hpf : p.pfx <;>
          simp [Paginator.curCount, Paginator.baseCount, Paginator.linesepLen, hpf] <;>
          omega
    · rw [Paginator.appendLine_false]
      unfold Paginator.suffixLen Paginator.linesepLen at hcond ⊢
      simp only
      omega

theorem Paginator.init_config (pfx suffix : Option String) (max_size : Nat)
    (linesep : String) :
    (Paginator.init pfx suffix max_size linesep).pfx = pfx ∧
    (Paginator.init pfx suffix max_size linesep).suffix = suffix ∧
    (Paginator.init pfx suffix max_size linesep).max_size = max_size ∧
    (Paginator.init pfx suffix max_size linesep).linesep = linesep := by
  cases pfx <;> simp [Paginator.init, Paginator.clear]

theorem Paginator.addAll_config {p q : Paginator} {lines : List String}
    (h : p.addAll lines = .ok q) :
    q.pfx = p.pfx ∧ q.suffix = p.suffix ∧ q.max_size = p.max_size ∧
    q.linesep = p.linesep := by
  induction lines generalizing p with
  | nil =>
    unfold Paginator.addAll at h
    simp only [Except.ok.injEq] at h
    subst h
    exact ⟨rfl, rfl, rfl, rfl⟩
  | cons l ls ih =>
    unfold Paginator.addAll at h
    cases hstep : p.add_line l false with
    | error e => rw [hstep] at h; exact absurd h (by simp [Except.bind])
    | ok r =>
      rw [hstep] at h
      simp only [Except.bind] at h
      obtain ⟨h1, h2, h3, h4⟩ := ih h
      obtain ⟨g1, g2, g3, g4⟩ := Paginator.add_line_config hstep
      exact ⟨h1.trans g1, h2.trans g2, h3.trans g3, h4.trans g4⟩

theorem Paginator.addAll_sizeInv {p q : Paginator} {lines : List String}
    (hp : p.sizeInv) (h : p.addAll lines = .ok q) : q.sizeInv := by
  induction lines generalizing p with
  | nil =>
    unfold Paginator.addAll at h
    simp only [Except.ok.injEq] at h
    subst h
    exact hp
  | cons l ls ih =>
    unfold Paginator.addAll at h
    cases hstep : p.add_line l false with
    | error e => rw [hstep] at h; exact absurd h (by simp [Except.bind])
    | ok r =>
      rw [hstep] at h
      simp only [Except.bind] at h
      exact ih (Paginator.add_line_sizeInv hp hstep) h

/-- Claim C2 (amended): for every sequence of `add_line` calls with
`empty=False` that does not raise (over a sane configuration in which
prefix, suffix and line separator fit in `max_size`), the rendered length of
the open page buffer — prefix, suffix and line-separator overhead included —
never exceeds `max_size`; and whenever appending a line plus one line
separator would push the buffer past `max_size - suffix_len`, `add_line`
closes the current page first and appends the line to a fresh buffer.
(The original claim also asserted the bound for `empty=True` calls, which
the code violates — see the counterexample.) -/
theorem open_buffer_never_exceeds_max_size :
    (∀ (pfx suffix : Option String) (max_size : Nat) (linesep : String)
        (lines : List String) (q : Paginator),
        (pfx.getD "").length + (suffix.getD "").length + linesep.length ≤
          max_size →
        (Paginator.init pfx suffix max_size linesep).addAll lines = .ok q →
        q.openRendered.length ≤ max_size) ∧
    (∀ (p : Paginator) (line : String) (empty : Bool),
        ¬((line.length : Int) > p.max_page_size) →
        (p._count : Int) + line.length + p.linesepLen >
          (p.max_size : Int) - p.suffixLen →
        p.add_line line empty = .ok (p.close_page.appendLine line empty)) := by
  constructor
  · intro pfx suffix max_size linesep lines q hcfg h
    have hinv := Paginator.addAll_sizeInv
      (Paginator.init_sizeInv pfx suffix max_size linesep hcfg) h
    have hren := Paginator.openRendered_le hinv.1
    have hb2 : q._count + q.suffixLen ≤ q.max_size := hinv.2
    have hc := Paginator.addAll_config h
    have hi := Paginator.init_config pfx suffix max_size linesep
    have hms : q.max_size = max_size := hc.2.2.1.trans hi.2.2.1
    omega
  · intro p line empty hguard hcond
    unfold Paginator.add_line
    rw [if_neg hguard, if_pos hcond]

/-- Witness for the amended C2 on a concrete `empty=False` sequence that
spills over two page boundaries, and a concrete close-first step. -/
theorem open_buffer_never_exceeds_max_size_witness :
    ((Paginator.init (some "p") (some "s") 10 "\n").addAll ["hi", "there", "all"] =
      .ok ⟨some "p", some "s", 10, "\n", ["p", "all"], 6,
        ["p\nhi\ns", "p\nthere\ns"]⟩ ∧
      ((⟨some "p", some "s", 10, "\n", ["p", "all"], 6,
        ["p\nhi\ns", "p\nthere\ns"]⟩ : Paginator)).openRendered.length ≤ 10) ∧
    (⟨some "p", some "s", 10, "\n", ["p", "hi"], 5, []⟩ : Paginator).add_line
        "there" false =
      .ok ((⟨some "p", some "s", 10, "\n", ["p", "hi"], 5, []⟩ :
        Paginator).close_page.appendLine "there" false) := by
  constructor
  · exact ⟨by decide,
      open_buffer_never_exceeds_max_size.1 (some "p") (some "s") 10 "\n"
        ["hi", "there", "all"] _ (by decide) (by decide)⟩
  · exact open_buffer_never_exceeds_max_size.2
      ⟨some "p", some "s", 10, "\n", ["p", "hi"], 5, []⟩ "there" false
      (by decide) (by decide)

/-- Counterexample to C2 as stated: with `prefix="p"`, `suffix="s"`,
`max_size=10`, `linesep="\n"` (capacity 6), adding the 6-character line
`"aaaaaa"` with `empty=True` succeeds, yet the open buffer now renders to
11 characters — past `max_size`. -/
theorem open_buffer_empty_true_counterexample :
    (Paginator.init (some "p") (some "s") 10 "\n").add_line "aaaaaa" true =
      .ok ⟨some "p", some "s", 10, "\n", ["p", "aaaaaa", ""], 10, []⟩ ∧
    10 < ((⟨some "p", some "s", 10, "\n", ["p", "aaaaaa", ""], 10, []⟩ :
      Paginator)).openRendered.length := by
  constructor
  · decide
  · decide

theorem Paginator.close_page_pages (p : Paginator) :
    p.close_page._pages = p._pages ++ [p.openRendered] := by
  cases hp : p.pfx <;> cases hs : p.suffix <;>
    simp [Paginator.close_page, Paginator.openRendered, optList, hp, hs]

theorem Paginator.openRendered_eq {p : Paginator} {curLines : List String}
    (hcur : p._current_page = optList p.pfx ++ curLines) :
    p.openRendered = renderPage p.pfx p.suffix p.linesep curLines := by
  unfold Paginator.openRendered renderPage
  rw [hcur, List.append_assoc]

theorem Paginator.init_contentInv (pfx suffix : Option String) (max_size : Nat)
    (linesep : String) :
    (Paginator.init pfx suffix max_size linesep).contentInv [] := by
  refine ⟨[], [], ?_, ?_, rfl⟩ <;>
    cases pfx <;> simp [Paginator.init, Paginator.clear, optList]

theorem Paginator.close_page_contentInv {p : Paginator} {added : List String}
    (hp : p.contentInv added) : p.close_page.contentInv added := by
  obtain ⟨groups, curLines, h1, h2, h3⟩ := hp
  obtain ⟨hg1, hg2, hg3, hg4⟩ := Paginator.close_page_config p
  obtain ⟨hc1, _⟩ := Paginator.close_page_resets p
  refine ⟨groups ++ [curLines], [], ?_, ?_, ?_⟩
  · rw [Paginator.close_page_pages, h1, Paginator.openRendered_eq h2,
      hg1, hg2, hg4]
    simp
  · rw [hc1, hg1]
    simp
  · simp [← h3]

theorem Paginator.add_line_contentInv {p q : Paginator} {added : List String}
    {line : String}
    (hp : p.contentInv added) (h : p.add_line line false = .ok q) :
    q.contentInv (added ++ [line]) := by
  unfold Paginator.add_line at h
  split at h
  · exact absurd h (by simp)
  · simp only [Except.ok.injEq] at h
    subst h
    have key : ∀ r : Paginator, r.contentInv added → r.pfx = p.pfx →
        (r.appendLine line false).contentInv (added ++ [line]) := by
      intro r hr hrp
      obtain ⟨groups, curLines, h1, h2, h3⟩ := hr
      rw [Paginator.appendLine_false]
      refine ⟨groups, curLines ++ [line], h1, ?_, ?_⟩
      · simp [h2]
      · rw [← List.append_assoc, h3]
    split
    · exact key p.close_page (Paginator.close_page_contentInv hp)
        (Paginator.close_page_config p).1
    · exact key p hp rfl

theorem Paginator.addAll_contentInv {p q : Paginator} {added lines : List String}
    (hp : p.contentInv added) (h : p.addAll lines = .ok q) :
    q.contentInv (added ++ lines) := by
  induction lines generalizing p added with
  | nil =>
    unfold Paginator.addAll at h
    simp only [Except.ok.injEq] at h
    subst h
    simpa using hp
  | cons l ls ih =>
    unfold Paginator.addAll at h
    cases hstep : p.add_line l false with
    | error e => rw [hstep] at h; exact absurd h (by simp [Except.bind])
    | ok r =>
      rw [hstep] at h
      simp only [Except.bind] at h
      have := ih (Paginator.add_line_contentInv hp hstep) h
      simpa [List.append_assoc] using this

theorem Paginator.addAll_ok {p : Paginator} {lines : List String}
    (hlines : ∀ l ∈ lines, (l.length : Int) ≤ p.max_page_size) :
    ∃ q, p.addAll lines = .ok q := by
  induction lines generalizing p with
  | nil => exact ⟨p, rfl⟩
  | cons l ls ih =>
    have hstep : ∃ r, p.add_line l false = .ok r := by
      unfold Paginator.add_line
      rw [if_neg (by have := hlines l (by simp); omega)]
      exact ⟨_, rfl⟩
    obtain ⟨r, hr⟩ := hstep
    have hmps := Paginator.add_line_max_page_size hr
    obtain ⟨q, hq⟩ := @ih r (fun x hx => hmps ▸ hlines x (by simp [hx]))
    refine ⟨q, ?_⟩
    unfold Paginator.addAll
    rw [hr]
    simpa [Except.bind] using hq

theorem Paginator.pages_of_contentInv {p : Paginator} {added : List String}
    (hp : p.contentInv added) :
    ∃ groups : List (List String),
      p.pages = groups.map (renderPage p.pfx p.suffix p.linesep) ∧
      groups.join = added := by
  obtain ⟨groups, curLines, h1, h2, h3⟩ := hp
  unfold Paginator.pages Paginator.pagesState
  split
  · refine ⟨groups ++ [curLines], ?_, ?_⟩
    · rw [Paginator.close_page_pages, h1, Paginator.openRendered_eq h2]
      simp
    · simp [← h3]
  · rename_i hcond
    have hcl : curLines = [] := by
      have hlen0 : curLines.length = 0 := by
        rw [h2] at hcond
        cases hpf : p.pfx <;> rw [hpf] at hcond <;>
          simp [optList] at hcond <;> simp [hcond]
      exact List.length_eq_zero.mp hlen0
    subst hcl
    exact ⟨groups, h1, by simpa using h3⟩

/-- Claim C1: folding any sequence of lines that individually fit the usable
capacity through `add_line` succeeds, and the pages returned by the `pages`
accessor are precisely the renderings (prefix + content lines + suffix,
joined by the line separator) of consecutive groups of the added lines —
so stripping each page's prefix and suffix reconstructs the original
sequence of lines in order. -/
theorem pages_reconstruct_lines (pfx suffix : Option String) (max_size : Nat)
    (linesep : String) (lines : List String)
    (h : ∀ l ∈ lines, (l.length : Int) ≤
      (Paginator.init pfx suffix max_size linesep).max_page_size) :
    ∃ q, (Paginator.init pfx suffix max_size linesep).addAll lines = .ok q ∧
      ∃ groups : List (List String),
        q.pages = groups.map (renderPage pfx suffix linesep) ∧
        groups.join = lines := by
  obtain ⟨q, hq⟩ := Paginator.addAll_ok h
  refine ⟨q, hq, ?_⟩
  have hci := Paginator.addAll_contentInv
    (Paginator.init_contentInv pfx suffix max_size linesep) hq
  simp only [List.nil_append] at hci
  obtain ⟨groups, hg1, hg2⟩ := Paginator.pages_of_contentInv hci
  have hc := Paginator.addAll_config hq
  have hi := Paginator.init_config pfx suffix max_size linesep
  refine ⟨groups, ?_, hg2⟩
  rw [hg1, hc.1, hc.2.1, hc.2.2.2, hi.1, hi.2.1, hi.2.2.2]

/-- Witness for C1: three short lines over a capacity-6 configuration are
split into pages `p\nhi\ns`, `p\nthere\ns` and a final page holding `all`;
the groups joining back to the input are exhibited by the theorem. -/
theorem pages_reconstruct_lines_witness :
    (∀ l ∈ ["hi", "there", "all"], (l.length : Int) ≤
      (Paginator.init (some "p") (some "s") 10 "\n").max_page_size) ∧
    ∃ q, (Paginator.init (some "p") (some "s") 10 "\n").addAll
        ["hi", "there", "all"] = .ok q ∧
      ∃ groups : List (List String),
        q.pages = groups.map (renderPage (some "p") (some "s") "\n") ∧
        groups.join = ["hi", "there", "all"] :=
  ⟨by decide,
   pages_reconstruct_lines (some "p") (some "s") 10 "\n" ["hi", "there", "all"]
     (by decide)⟩

/-- Claim C7 (amended): provided there is at least one page, reading
`display_page` returns a value in `[0, page_count - 1]`, and after assigning
any integer — negative or past the last page — the stored value reads back
inside that interval.  (When `page_count = 0` the interval is empty and the
read returns `0` — see the counterexample.) -/
theorem display_page_clamped (i : PaginatorInterface)
    (h : 1 ≤ i.page_count) :
    (0 ≤ i.display_page_read.1 ∧
      i.display_page_read.1 ≤ (i.page_count : Int) - 1) ∧
    ∀ v : Int,
      0 ≤ ((i.display_page_set v).display_page_read).1 ∧
      ((i.display_page_set v).display_page_read).1 ≤
        (((i.display_page_set v).page_count : Int)) - 1 := by
  have hpc : ∀ v : Int, (i.display_page_set v).page_count = i.page_count :=
    fun _ => rfl
  constructor
  · simp only [PaginatorInterface.display_page_read]
    refine ⟨le_max_left 0 _, max_le ?_ (min_le_left _ _)⟩
    omega
  · intro v
    simp only [PaginatorInterface.display_page_read, hpc]
    refine ⟨le_max_left 0 _, max_le ?_ (min_le_left _ _)⟩
    omega

/-- Witness for C7 on a one-page interface, exercising the setter with the
out-of-range values `-5` and `99`. -/
theorem display_page_clamped_witness :
    (0 ≤ (PaginatorInterface.display_page_read
        ⟨⟨some "p", some "s", 10, "\n", ["p", "hi"], 5, []⟩, 7⟩).1 ∧
      (PaginatorInterface.display_page_read
        ⟨⟨some "p", some "s", 10, "\n", ["p", "hi"], 5, []⟩, 7⟩).1 ≤
        ((PaginatorInterface.page_count
          ⟨⟨some "p", some "s", 10, "\n", ["p", "hi"], 5, []⟩, 7⟩ : Int)) - 1) ∧
    (0 ≤ ((PaginatorInterface.display_page_set
        ⟨⟨some "p", some "s", 10, "\n", ["p", "hi"], 5, []⟩, 7⟩
        (-5)).display_page_read).1 ∧
      0 ≤ ((PaginatorInterface.display_page_set
        ⟨⟨some "p", some "s", 10, "\n", ["p", "hi"], 5, []⟩, 7⟩
        99).display_page_read).1) :=
  ⟨(display_page_clamped ⟨⟨some "p", some "s", 10, "\n", ["p", "hi"], 5, []⟩, 7⟩
      (by decide)).1,
   ((display_page_clamped ⟨⟨some "p", some "s", 10, "\n", ["p", "hi"], 5, []⟩, 7⟩
      (by decide)).2 (-5)).1,
   ((display_page_clamped ⟨⟨some "p", some "s", 10, "\n", ["p", "hi"], 5, []⟩, 7⟩
      (by decide)).2 99).1⟩

/-- Counterexample to C7 as stated: an interface constructed over a fresh
paginator has `page_count = 0`, so the interval `[0, page_count - 1]` is
empty, yet reading `display_page` returns `0` — outside that interval. -/
theorem display_page_clamped_counterexample :
    PaginatorInterface.init (Paginator.init (some "```") (some "```") 100 "\n") =
      .ok ⟨Paginator.init (some "```") (some "```") 100 "\n", 0⟩ ∧
    (PaginatorInterface.display_page_read
      ⟨Paginator.init (some "```") (some "```") 100 "\n", 0⟩).1 = 0 ∧
    ¬((PaginatorInterface.display_page_read
        ⟨Paginator.init (some "```") (some "```") 100 "\n", 0⟩).1 ≤
      ((PaginatorInterface.page_count
        ⟨Paginator.init (some "```") (some "```") 100 "\n", 0⟩ : Int)) - 1) := by
  refine ⟨by decide, by decide, by decide⟩

/-- Claim C8: constructing a `PaginatorInterface` raises exactly when the
paginator's `max_size` plus the length of the longest possible
`"\nPage N/M"` footer (both numbers rendered at the current page count)
exceeds the 2000-character platform ceiling; the check is performed at
construction. -/
theorem interface_init_size_check (pag : Paginator) :
    (∃ e, PaginatorInterface.init pag = .error e) ↔
      2000 < pag.max_size +
        ("\nPage " ++ toString (PaginatorInterface.page_count ⟨pag, 0⟩) ++ "/" ++
          toString (PaginatorInterface.page_count ⟨pag, 0⟩)).length := by
  unfold PaginatorInterface.init
  split
  · rename_i hc
    unfold PaginatorInterface.page_size PaginatorInterface.max_page_size at hc
    exact ⟨fun _ => hc, fun _ => ⟨_, rfl⟩⟩
  · rename_i hc
    unfold PaginatorInterface.page_size PaginatorInterface.max_page_size at hc
    constructor
    · rintro ⟨e, he⟩
      exact absurd he (by simp)
    · intro hgt
      exact absurd hgt hc

/-- Claim C10: the `PaginatorInterface` read-only accessors never mutate the
underlying `Paginator` — `display_page` (which rewrites only the stored
index) and `send_kwargs` leave the paginator's closed pages, open buffer and
count untouched, and `PaginatorInterface.pages` is computed as a pure
function of the paginator — whereas `Paginator.pages` does mutate its
paginator on some states. -/
theorem interface_reads_do_not_mutate :
    (∀ i : PaginatorInterface, i.display_page_read.2.paginator = i.paginator) ∧
    (∀ i : PaginatorInterface, i.send_kwargs_read.2.paginator = i.paginator) ∧
    (∀ i : PaginatorInterface,
      i.display_page_read.2.paginator._pages = i.paginator._pages ∧
      i.display_page_read.2.paginator._current_page =
        i.paginator._current_page ∧
      i.display_page_read.2.paginator._count = i.paginator._count) ∧
    (∃ p : Paginator, Paginator.pagesState p ≠ p) := by
  refine ⟨fun i => rfl, fun i => ?_, fun i => ⟨rfl, rfl, rfl⟩, ?_⟩
  · unfold PaginatorInterface.send_kwargs_read
    dsimp only
    split <;> rfl
  · exact ⟨⟨some "p", some "s", 10, "\n", ["p", "hi"], 5, []⟩, by decide⟩

/-- Claim C5: `wrap_code` rewrites the wrapped body's final statement as
follows — a final bare expression statement whose value is not already an
`ast.Yield` is replaced in place by a yield of that same expression; a final
statement that is not an expression statement, or already a yield
expression, is left unchanged with no yield injected. -/
theorem wrap_code_final_statement (userBody : List PyStmt) :
    (∀ e : PyExpr,
      (PyStmt.passS :: userBody).getLast? = some (.exprStmt e) →
      e.isYield = false →
      wrap_code userBody =
        (PyStmt.passS :: userBody).dropLast ++
          [.exprStmt (.yieldE e)]) ∧
    (∀ last : PyStmt,
      (PyStmt.passS :: userBody).getLast? = some last →
      ((∀ e : PyExpr, last ≠ .exprStmt e) ∨
        (∃ e, last = .exprStmt e ∧ e.isYield = true)) →
      wrap_code userBody = PyStmt.passS :: userBody) := by
  constructor
  · intro e hl hy
    unfold wrap_code
    simp only [List.singleton_append]
    rw [hl]
    simp [hy]
  · intro last hl hcond
    unfold wrap_code
    simp only [List.singleton_append]
    rw [hl]
    rcases hcond with hne | ⟨e, hv, hy⟩
    · cases last with
      | exprStmt e => exact absurd rfl (hne e)
      | assign x e => rfl
      | passS => rfl
      | raiseS => rfl
    · subst hv
      simp [hy]

/-- Witness for C5: `x = 5; x` gets its trailing expression wrapped in a
yield, while `x = 5` (final statement an assignment) is unchanged. -/
theorem wrap_code_final_statement_witness :
    wrap_code [.assign "x" (.constE 5), .exprStmt (.name "x")] =
      [.passS, .assign "x" (.constE 5),
        .exprStmt (.yieldE (.name "x"))] ∧
    wrap_code [.assign "x" (.constE 5)] =
      [.passS, .assign "x" (.constE 5)] := by
  constructor
  · have h := (wrap_code_final_statement
      [.assign "x" (.constE 5), .exprStmt (.name "x")]).1 (.name "x")
      (by decide) (by decide)
    simpa using h
  · exact (wrap_code_final_statement [.assign "x" (.constE 5)]).2
      (.assign "x" (.constE 5)) (by decide)
      (.inl (fun e h => PyStmt.noConfusion h))

/-- Claim C6: the generated template merges every local binding created
during execution into the scope's persisted globals before control
returns, whether the body completed normally or raised; concretely,
executing `x = 5` (no output) and then `x + 1` against the same scope
yields `6`, and a binding made before a `raise` is equally visible to a
later submission. -/
theorem scope_persists_across_submissions :
    (∀ (scope : Scope) (body : List PyStmt) (x : String) (v : Int),
      (runStmts scope.globals (wrap_code body) (fun _ => none) []).locals x =
        some v →
      (AsyncCodeExecutor.run scope body).1.globals x = some v) ∧
    ((AsyncCodeExecutor.run ⟨fun _ => none, fun _ => none⟩
        [.assign "x" (.constE 5)]).2.1 = [] ∧
      (AsyncCodeExecutor.run
        (AsyncCodeExecutor.run ⟨fun _ => none, fun _ => none⟩
          [.assign "x" (.constE 5)]).1
        [.exprStmt (.binop (.name "x") (.constE 1))]).2.1 = [some 6]) ∧
    ((AsyncCodeExecutor.run ⟨fun _ => none, fun _ => none⟩
        [.assign "y" (.constE 7), .raiseS]).2.2 = true ∧
      (AsyncCodeExecutor.run
        (AsyncCodeExecutor.run ⟨fun _ => none, fun _ => none⟩
          [.assign "y" (.constE 7), .raiseS]).1
        [.exprStmt (.binop (.name "y") (.constE 1))]).2.1 = [some 8]) := by
  refine ⟨?_, ⟨?_, ?_⟩, ⟨?_, ?_⟩⟩
  · intro scope body x v h
    unfold AsyncCodeExecutor.run
    dsimp only
    unfold nsUpdate
    rw [h]
  · rfl
  · rfl
  · rfl
  · rfl

/-- Witness for C6's general merge property at the concrete first snippet:
after running `x = 5`, the scope's globals map `x` to `5`. -/
theorem scope_persists_across_submissions_witness :
    (AsyncCodeExecutor.run ⟨fun _ => none, fun _ => none⟩
      [.assign "x" (.constE 5)]).1.globals "x" = some 5 :=
  scope_persists_across_submissions.1 ⟨fun _ => none, fun _ => none⟩
    [.assign "x" (.constE 5)] "x" 5 rfl

theorem stringMk_length (l : List Char) : (String.mk l).length = l.length := rfl

theorem string_length_data (s : String) : s.data.length = s.length := rfl

theorem pySliceTo_length (s : String) (j : Int) (hj : 0 ≤ j) :
    (pySliceTo s j).length = min j.toNat s.length := by
  unfold pySliceTo
  rw [if_neg (by omega), stringMk_length, List.length_take, string_length_data]

theorem pySliceFrom_length (s : String) (i : Int) (hi : 0 ≤ i) :
    (pySliceFrom s i).length = s.length - i.toNat := by
  unfold pySliceFrom
  rw [if_neg (by omega), stringMk_length, List.length_drop, string_length_data]

theorem pySliceTo_data (s : String) (j : Int) :
    ∃ k : Nat, (pySliceTo s j).data = s.data.take k := by
  unfold pySliceTo
  split <;> exact ⟨_, rfl⟩

theorem pySliceFrom_data (s : String) (i : Int) (hi : 0 ≤ i) :
    (pySliceFrom s i).data = s.data.drop i.toNat := by
  unfold pySliceFrom
  rw [if_neg (by omega)]

theorem isPrefixOf_of_take :
    ∀ (d ys : List Char) (k : Nat),
      d.isPrefixOf (ys.take k) = true → d.isPrefixOf ys = true := by
  intro d
  induction d with
  | nil => intro ys k _; simp
  | cons c d' ih =>
    intro ys k h
    cases ys with
    | nil => simp at h
    | cons y ys' =>
      cases k with
      | zero => simp [List.isPrefixOf] at h
      | succ k' =>
        simp only [List.take_succ_cons, List.isPrefixOf,
          Bool.and_eq_true, beq_iff_eq] at h ⊢
        exact ⟨h.1, ih ys' k' h.2⟩

theorem rfind_nonpos {s d : String}
    (h : ∀ i : Nat, 0 < i → ¬ d.data.isPrefixOf (s.data.drop i) = true) :
    rfind s d ≤ 0 := by
  unfold rfind
  cases hg : ((List.range (s.length + 1)).filter
      (fun i => d.data.isPrefixOf (s.data.drop i))).getLast? with
  | none => simp
  | some i =>
    have hmem : i ∈ (List.range (s.length + 1)).filter
        (fun i => d.data.isPrefixOf (s.data.drop i)) :=
      List.mem_of_mem_getLast? (by rw [hg]; rfl)
    have hpred := (List.mem_filter.mp hmem).2
    simp only [decide_eq_true_eq] at hpred
    by_contra hlt
    push_neg at hlt
    exact h i (by exact_mod_cast hlt) hpred

theorem findWrapPoint_eq_none {wrap_on : List String} {s : String}
    (h : ∀ d ∈ wrap_on, rfind s d ≤ 0) :
    findWrapPoint wrap_on s = none := by
  unfold findWrapPoint
  induction wrap_on with
  | nil => rfl
  | cons d ds ih =>
    rw [List.findSome?_cons]
    have hd := h d (by simp)
    rw [if_neg (by omega)]
    exact ih (fun x hx => h x (by simp [hx]))

theorem noDelimAfter_search {wrap_on : List String} {line : String}
    (h : noDelimAfter wrap_on line) (j : Int) :
    ∀ d ∈ wrap_on, rfind (pySliceTo line j) d ≤ 0 := by
  intro d hd
  apply rfind_nonpos
  intro i hi hpre
  obtain ⟨k, hk⟩ := pySliceTo_data line j
  rw [hk, List.drop_take] at hpre
  exact h d hd i hi (isPrefixOf_of_take _ _ _ hpre)

theorem noDelimAfter_drop {wrap_on : List String} {line : String}
    (h : noDelimAfter wrap_on line) (m : Int) (hm : 0 ≤ m) :
    noDelimAfter wrap_on (pySliceFrom line m) := by
  intro d hd i hi
  rw [pySliceFrom_data line m hm, List.drop_drop]
  exact h d hd (m.toNat + i) (by omega)

theorem specForceChunks_ne_nil (true_max_size : Int) (fuel : Nat)
    (line : String) : specForceChunks true_max_size fuel line ≠ [] := by
  cases fuel with
  | zero => simp [specForceChunks]
  | succ n =>
    unfold specForceChunks
    split <;> simp

/-- With `force_wrap=True` and no delimiter at a positive position, the
wrapping loop is exactly the fold of the base `add_line` over the
truncation-boundary chunks. -/
theorem wrapLoop_force_eq (wrap_on : List String) (include_wrapped : Bool)
    (true_max_size : Int) (original_length : Nat)
    (htms : 2 ≤ true_max_size) :
    ∀ (fuel : Nat) (line : String) (p : Paginator) (empty : Bool),
      line.length < fuel →
      noDelimAfter wrap_on line →
      wrapLoop wrap_on include_wrapped true true_max_size original_length
          fuel p line empty =
        addChunks p empty (specForceChunks true_max_size fuel line) := by
  intro fuel
  induction fuel with
  | zero => intro line p empty hf; omega
  | succ n ih =>
    intro line p empty hf hno
    by_cases hc : (line.length : Int) > true_max_size
    · have hfw : findWrapPoint wrap_on (pySliceTo line (true_max_size - 1)) =
          none :=
        findWrapPoint_eq_none (noDelimAfter_search hno (true_max_size - 1))
      have hlen' : (pySliceFrom line (true_max_size - 1)).length < n := by
        rw [pySliceFrom_length line _ (by omega)]
        omega
      have hno' := noDelimAfter_drop hno (true_max_size - 1) (by omega)
      obtain ⟨c2, rest2, hrest⟩ :
          ∃ c2 rest2, specForceChunks true_max_size n
            (pySliceFrom line (true_max_size - 1)) = c2 :: rest2 := by
        cases hsc : specForceChunks true_max_size n
            (pySliceFrom line (true_max_size - 1)) with
        | nil => exact absurd hsc (specForceChunks_ne_nil _ _ _)
        | cons a b => exact ⟨a, b, rfl⟩
      unfold wrapLoop specForceChunks
      rw [if_pos hc, if_pos hc, hfw, if_pos rfl, hrest]
      unfold addChunks
      cases hadd : p.add_line (pySliceTo line (true_max_size - 1)) false with
      | error e => rfl
      | ok p1 =>
        rw [← hrest]
        exact ih (pySliceFrom line (true_max_size - 1)) p1 empty hlen' hno'
    · unfold wrapLoop specForceChunks
      rw [if_neg hc, if_neg hc]
      rfl

/-- Every truncation-boundary chunk is within `true_max_size`. -/
theorem specForceChunks_le (true_max_size : Int) (htms : 2 ≤ true_max_size) :
    ∀ (fuel : Nat) (line : String), line.length < fuel →
      ∀ c ∈ specForceChunks true_max_size fuel line,
        (c.length : Int) ≤ true_max_size := by
  intro fuel
  induction fuel with
  | zero => intro line hf; omega
  | succ n ih =>
    intro line hf c hc
    unfold specForceChunks at hc
    by_cases hcond : (line.length : Int) > true_max_size
    · rw [if_pos hcond] at hc
      rcases List.mem_cons.mp hc with h1 | h2
      · subst h1
        rw [pySliceTo_length line _ (by omega)]
        omega
      · exact ih (pySliceFrom line (true_max_size - 1))
          (by rw [pySliceFrom_length line _ (by omega)]; omega) c h2
    · rw [if_neg hcond] at hc
      simp at hc
      subst hc
      omega

/-- Feeding chunks that all fit the base capacity never raises. -/
theorem addChunks_ok {empty : Bool} :
    ∀ (chunks : List String) (p : Paginator),
      (∀ c ∈ chunks, (c.length : Int) ≤ p.max_page_size) →
      ∃ q, addChunks p empty chunks = .ok q := by
  intro chunks
  induction chunks with
  | nil => exact fun p _ => ⟨p, rfl⟩
  | cons c cs ih =>
    intro p hcap
    have hstep : ∀ e : Bool, ∃ p1, p.add_line c e = .ok p1 := by
      intro e
      unfold Paginator.add_line
      rw [if_neg (by have := hcap c (by simp); omega)]
      exact ⟨_, rfl⟩
    cases cs with
    | nil =>
      obtain ⟨p1, h1⟩ := hstep empty
      exact ⟨p1, h1⟩
    | cons c2 rest =>
      obtain ⟨p1, h1⟩ := hstep false
      have hm := Paginator.add_line_max_page_size h1
      obtain ⟨q, hq⟩ := ih p1 (fun x hx => by
        rw [hm]; exact hcap x (by simp [hx]))
      refine ⟨q, ?_⟩
      unfold addChunks
      rw [h1]
      exact hq

/-- Reduce the unbounded "no occurrence at a positive position" condition
to a decidable bounded check: beyond the string's length every drop is
empty, where a nonempty needle cannot occur. -/
theorem noPrefixAll_of_bounded {d xs : List Char} (hd : d ≠ [])
    (h : ∀ i ∈ List.range (xs.length + 1), 0 < i →
      ¬ d.isPrefixOf (xs.drop i) = true) :
    ∀ i : Nat, 0 < i → ¬ d.isPrefixOf (xs.drop i) = true := by
  intro i hi
  by_cases hle : i ≤ xs.length
  · exact h i (List.mem_range.mpr (by omega)) hi
  · intro hpre
    rw [List.drop_eq_nil_of_le (by omega)] at hpre
    cases d with
    | nil => exact hd rfl
    | cons c cs => simp [List.isPrefixOf] at hpre

/-- Claim C4 (amended): for every line longer than `true_max_size`
(`max_size - prefix_len - suffix_len - 2`) with no configured delimiter at
a position greater than `0` before the cutoff: if `force_wrap` is `False`,
`WrappedPaginator.add_line` raises the wrap-impossible error naming the
line's original length, the remaining length and the max usable size.  If
`force_wrap` is `True` — provided additionally that the line separator is
at most one character (its default `"\n"`), that the usable size is at
least `2`, and that no delimiter occurs at a positive position anywhere in
the line — it succeeds, and the pieces handed to the base paginator are
exactly the truncation-boundary chunks, each within capacity. -/
theorem wrapped_add_line_no_delimiter :
    (∀ (w : WrappedPaginator) (line : String) (empty : Bool),
      w.force_wrap = false →
      w.true_max_size < line.length →
      (∀ d ∈ w.wrap_on, ∀ i : Nat, 0 < i →
        ¬ d.data.isPrefixOf
          ((pySliceTo line (w.true_max_size - 1)).data.drop i) = true) →
      w.add_line line empty =
        .error (.cannotWrap line.length line.length w.true_max_size)) ∧
    (∀ (w : WrappedPaginator) (line : String) (empty : Bool),
      w.force_wrap = true →
      2 ≤ w.true_max_size →
      w.toPaginator.linesepLen ≤ 1 →
      w.true_max_size < line.length →
      noDelimAfter w.wrap_on line →
      (w.add_line line empty =
          addChunks w.toPaginator empty
            (specForceChunks w.true_max_size (line.length + 1) line) ∧
        (∃ q, w.add_line line empty = .ok q) ∧
        ∀ c ∈ specForceChunks w.true_max_size (line.length + 1) line,
          (c.length : Int) ≤ w.true_max_size)) := by
  constructor
  · intro w line empty hforce hlong hns
    unfold WrappedPaginator.add_line
    unfold wrapLoop
    rw [if_pos (by omega)]
    have hfw : findWrapPoint w.wrap_on
        (pySliceTo line (w.true_max_size - 1)) = none :=
      findWrapPoint_eq_none (fun d hd => rfind_nonpos (hns d hd))
    rw [hfw, hforce]
    rw [if_neg (by simp)]
  · intro w line empty hforce htms hlsl hlong hno
    have heq : w.add_line line empty =
        addChunks w.toPaginator empty
          (specForceChunks w.true_max_size (line.length + 1) line) := by
      unfold WrappedPaginator.add_line
      rw [hforce]
      exact wrapLoop_force_eq w.wrap_on w.include_wrapped w.true_max_size
        line.length htms (line.length + 1) line w.toPaginator empty
        (by omega) hno
    have hbounds := specForceChunks_le w.true_max_size htms
      (line.length + 1) line (by omega)
    have hcap : ∀ c ∈ specForceChunks w.true_max_size (line.length + 1) line,
        (c.length : Int) ≤ w.toPaginator.max_page_size := by
      intro c hc
      have hcb := hbounds c hc
      unfold WrappedPaginator.true_max_size at hcb
      unfold Paginator.max_page_size Paginator.linesepLen at *
      omega
    obtain ⟨q, hq⟩ := @addChunks_ok empty _ w.toPaginator hcap
    exact ⟨heq, ⟨q, heq.trans hq⟩, hbounds⟩

/-- Counterexample to C4 as stated: over a two-character line separator
(`linesep="xx"`, `max_size=10`, usable size `6`, base capacity `4`), the
7-character all-`a` line has no delimiter occurrence at all, yet with
`force_wrap=True` `add_line` raises (the forced 5-character cut exceeds the
base paginator's capacity) instead of succeeding. -/
theorem wrapped_force_wrap_counterexample :
    rfind "aaaaaaa" "\n" = -1 ∧ rfind "aaaaaaa" " " = -1 ∧
    (⟨Paginator.init (some "p") (some "s") 10 "xx", ["\n", " "], true, true⟩ :
      WrappedPaginator).force_wrap = true ∧
    (⟨Paginator.init (some "p") (some "s") 10 "xx", ["\n", " "], true, true⟩ :
      WrappedPaginator).true_max_size = 6 ∧
    (⟨Paginator.init (some "p") (some "s") 10 "xx", ["\n", " "], true, true⟩ :
      WrappedPaginator).add_line "aaaaaaa" false =
      .error (.lineTooBig 4) := by
  refine ⟨by decide, by decide, rfl, by decide, by decide⟩

/-- Witness for C4 on concrete inputs: a 10-character delimiter-free line
over the default separator; with `force_wrap=False` the wrap-impossible
error names lengths 10, 10 and usable size 6; with `force_wrap=True` the
call equals feeding the truncation chunks to the base paginator. -/
theorem wrapped_add_line_no_delimiter_witness :
    (⟨Paginator.init (some "p") (some "s") 10 "\n", ["\n", " "], true, false⟩ :
      WrappedPaginator).add_line "aaaaaaaaaa" false =
      .error (.cannotWrap 10 10 6) ∧
    (⟨Paginator.init (some "p") (some "s") 10 "\n", ["\n", " "], true, true⟩ :
      WrappedPaginator).add_line "aaaaaaaaaa" false =
      addChunks (Paginator.init (some "p") (some "s") 10 "\n") false
        (specForceChunks 6 11 "aaaaaaaaaa") := by
  constructor
  · have h := wrapped_add_line_no_delimiter.1
      ⟨Paginator.init (some "p") (some "s") 10 "\n", ["\n", " "], true, false⟩
      "aaaaaaaaaa" false rfl (by decide)
      (by
        intro d hd
        simp only [List.mem_cons, List.not_mem_nil, or_false] at hd
        rcases hd with rfl | rfl <;>
          exact noPrefixAll_of_bounded (by decide) (by decide))
    simpa using h
  · have h := (wrapped_add_line_no_delimiter.2
      ⟨Paginator.init (some "p") (some "s") 10 "\n", ["\n", " "], true, true⟩
      "aaaaaaaaaa" false rfl (by decide) (by decide) (by decide)
      (by
        intro d hd
        simp only [List.mem_cons, List.not_mem_nil, or_false] at hd
        rcases hd with rfl | rfl <;>
          exact noPrefixAll_of_bounded (by decide) (by decide))).1
    simpa using h

end Repl
